import Mathlib

/-!
Shallow embedding of the `otter-heatmap` repository (files `src/Heatmap.tsx`
and the color utility `src/utils.ts` it imports), together with proofs of the
specification claims.

Modelling conventions:
* A calendar date is its epoch-day number (`ℤ`, days since 1970-01-01);
  `addDays`/`differenceInDays` become integer addition/subtraction and
  `Date.getDay` becomes `(d + 4) % 7` (1970-01-01 was a Thursday, JS day 4).
* The activity record `Record<string, number>` keyed by ISO `yyyy-mm-dd`
  strings is an association list keyed by the epoch-day number of the date the
  key denotes (the ISO key and the date determine each other).
* JS numbers used for pixel geometry and color intensity are `ℚ`; counts and
  day arithmetic are `ℤ`.  `Math.round` is `⌊q + 1/2⌋` (JS rounds half up),
  `Math.ceil` is `⌈·⌉`, both implemented by executable rational arithmetic.
* `parseInt(s, 16)` on a substring is `parseIntHex`: `none` models `NaN`.
-/

/-! ### Executable floor / ceiling / rounding on `ℚ` -/

/-- Executable floor of a rational number. -/
def ratFloor (q : ℚ) : ℤ := q.num / q.den

/-- Executable ceiling of a rational number. -/
def ratCeil (q : ℚ) : ℤ := -ratFloor (-q)

/-- JS `Math.round`: round half toward positive infinity. -/
def jsRound (q : ℚ) : ℤ := ratFloor (q + 1 / 2)

/-! ### Color utility (`src/utils.ts`) -/

/-- Hexadecimal value of one character, as used by JS `parseInt(·, 16)`. -/
def hexVal (c : Char) : Option ℕ :=
  if '0' ≤ c ∧ c ≤ '9' then some (c.toNat - '0'.toNat)
  else if 'a' ≤ c ∧ c ≤ 'f' then some (c.toNat - 'a'.toNat + 10)
  else if 'A' ≤ c ∧ c ≤ 'F' then some (c.toNat - 'A'.toNat + 10)
  else none

/-- Accumulate the value of the longest hex-digit run starting the string. -/
def hexAcc : List Char → ℕ → ℕ
  | [], acc => acc
  | c :: rest, acc =>
    match hexVal c with
    | some d => hexAcc rest (16 * acc + d)
    | none => acc

/-- JS `parseInt(s, 16)`: value of the longest valid hex prefix, `none`
(modelling `NaN`) when the string starts with no hex digit. -/
def parseIntHex (l : List Char) : Option ℕ :=
  match l with
  | [] => none
  | c :: _ =>
    match hexVal c with
    | some _ => some (hexAcc l 0)
    | none => none

/-- JS `s.substring(a, b)` as a character list. -/
def jsSubstring (s : String) (a b : ℕ) : List Char := (s.toList.drop a).take (b - a)

/-- One color channel after mixing: `Math.round(255 - (255 - channel) * intensity)`. -/
def mixChannel (channel : ℤ) (intensity : ℚ) : ℤ :=
  jsRound (255 - (255 - (channel : ℚ)) * intensity)

/-- Rendering of one mixed channel inside the `rgb(...)` template; a channel
that failed to parse renders as `NaN`, as in JS. -/
def chanStr (channel : Option ℕ) (intensity : ℚ) : String :=
  match channel with
  | some c => toString (mixChannel (c : ℤ) intensity)
  | none => "NaN"

/-- `shadeColor` from `src/utils.ts`. -/
def shadeColor (color : String) (intensity : ℚ) : String :=
  let r := parseIntHex (jsSubstring color 1 3)
  let g := parseIntHex (jsSubstring color 3 5)
  let b := parseIntHex (jsSubstring color 5 7)
  "rgb(" ++ chanStr r intensity ++ ", " ++ chanStr g intensity ++ ", " ++
    chanStr b intensity ++ ")"

/-- The intensity `Math.min(0.35 + 0.9 * (count / maxCount), 1)`. -/
def intensityFor (count maxCount : ℤ) : ℚ :=
  min (0.35 + 0.9 * ((count : ℚ) / (maxCount : ℚ))) 1

/-- `getColorForCount` from `src/utils.ts`. -/
def getColorForCount (count : ℤ) (baseColor : String) (maxCount : ℤ) : String :=
  if count ≤ 0 then "#ebedf0"
  else shadeColor baseColor (intensityFor count maxCount)

/-! ### Date primitives (model of the `date-fns` / `Date` collaborators) -/

/-- JS `Date.prototype.getDay` on an epoch-day date: 0 = Sunday … 6 = Saturday;
1970-01-01 (day 0) was a Thursday, day number 4. -/
def getDay (d : ℤ) : ℤ := (d + 4) % 7

/-- `date-fns` `addDays` on epoch-day dates. -/
def addDays (d n : ℤ) : ℤ := d + n

/-- `date-fns` `differenceInDays` on epoch-day dates. -/
def differenceInDays (a b : ℤ) : ℤ := a - b

/-- Month number (1–12) of an epoch-day date, by the standard civil-calendar
conversion (model of the `Date` month primitive). -/
def monthOfDay (z : ℤ) : ℤ :=
  let z2 := z + 719468
  let era := z2 / 146097
  let doe := z2 - era * 146097
  let yoe := (doe - doe / 1460 + doe / 36524 - doe / 146096) / 365
  let doy := doe - (365 * yoe + yoe / 4 - yoe / 100)
  let mp := (5 * doy + 2) / 153
  if mp < 10 then mp + 3 else mp - 9

/-- `date.toLocaleString("default", \x7b month: "short" \x7d)`: the English
short month name of an epoch-day date. -/
def monthShortName (z : ℤ) : String :=
  match (monthOfDay z).toNat with
  | 1 => "Jan" | 2 => "Feb" | 3 => "Mar" | 4 => "Apr" | 5 => "May" | 6 => "Jun"
  | 7 => "Jul" | 8 => "Aug" | 9 => "Sep" | 10 => "Oct" | 11 => "Nov" | 12 => "Dec"
  | _ => ""

/-! ### Heatmap layout (`src/Heatmap.tsx`) -/

/-- The props of the `Heatmap` component that the layout computation reads.
`data` is the activity record as an association list (date key, count);
`weekStart` is 0 or 1; sizes are in pixels. -/
structure HeatmapProps where
  data : List (ℤ × ℤ)
  startDate : ℤ
  endDate : ℤ
  cellSize : ℤ
  cellSpacing : ℤ
  weekStart : ℤ
deriving DecidableEq

/-- One generated day cell. -/
structure Cell where
  date : ℤ
  count : ℤ
  x : ℤ
  y : ℤ
deriving DecidableEq

/-- One month label. -/
structure MonthLabel where
  month : String
  x : ℤ
deriving DecidableEq

/-- `alignedStart`: `startDate` shifted back onto the configured week start. -/
def alignedStart (p : HeatmapProps) : ℤ :=
  addDays p.startDate (-((getDay p.startDate - p.weekStart + 7) % 7))

/-- `totalDays = differenceInDays(endDate, alignedStart) + 1`. -/
def totalDays (p : HeatmapProps) : ℤ :=
  differenceInDays p.endDate (alignedStart p) + 1

/-- `totalWeeks = Math.ceil(totalDays / 7)`. -/
def totalWeeks (p : HeatmapProps) : ℤ :=
  ratCeil ((totalDays p : ℚ) / 7)

/-- `data[key] || 0`: the count stored for a date key, defaulting to 0. -/
def lookupCount (data : List (ℤ × ℤ)) (d : ℤ) : ℤ :=
  match data.lookup d with
  | some v => v
  | none => 0

/-- `maxCount = Math.max(...Object.values(data), 1)`. -/
def maxCount (data : List (ℤ × ℤ)) : ℤ :=
  (data.map Prod.snd).foldr max 1

/-- The cell-generation loop: for `i` in `[0, totalDays)` push one cell. -/
def cells (p : HeatmapProps) : List Cell :=
  (List.range (totalDays p).toNat).map fun i =>
    let weekIndex : ℕ := i / 7
    let dayIndex : ℕ := i % 7
    ⟨addDays (alignedStart p) i,
     lookupCount p.data (addDays (alignedStart p) i),
     (weekIndex : ℤ) * (p.cellSize + p.cellSpacing),
     (dayIndex : ℤ) * (p.cellSize + p.cellSpacing)⟩

/-- The month-label loop over the generated cells, carrying the `seenMonths`
set (as a list of month names): skip padding cells before `startDate`, emit a
label at the cell's x offset on the first occurrence of a month name. -/
def monthLabelsAux (start : ℤ) : List Cell → List String → List MonthLabel
  | [], _ => []
  | c :: rest, seen =>
    if c.date < start then monthLabelsAux start rest seen
    else if monthShortName c.date ∈ seen then monthLabelsAux start rest seen
    else ⟨monthShortName c.date, c.x⟩ :: monthLabelsAux start rest (monthShortName c.date :: seen)

/-- `monthLabels` of the component. -/
def monthLabels (p : HeatmapProps) : List MonthLabel :=
  monthLabelsAux p.startDate (cells p) []

/-- `svgWidth = totalWeeks * (cellSize + cellSpacing) + 50`. -/
def svgWidth (p : HeatmapProps) : ℤ :=
  totalWeeks p * (p.cellSize + p.cellSpacing) + 50

/-- `svgHeight = 7 * (cellSize + cellSpacing) + 20`. -/
def svgHeight (p : HeatmapProps) : ℤ :=
  7 * (p.cellSize + p.cellSpacing) + 20

/-- First-occurrence filter on prepared month labels: keep an entry when its
month name has not been seen yet (the `seenMonths` mechanism of the label loop,
abstracted from the cell traversal). -/
def buildFirst : List MonthLabel → List String → List MonthLabel
  | [], _ => []
  | e :: rest, seen =>
    if e.month ∈ seen then buildFirst rest seen
    else e :: buildFirst rest (e.month :: seen)

/-- The candidate labels of the visible (non-padding) cells, in cell order. -/
def visPairs (start : ℤ) (l : List Cell) : List MonthLabel :=
  l.filterMap fun c =>
    if c.date < start then none else some ⟨monthShortName c.date, c.x⟩

/-! ### Basic facts about the executable rounding functions -/

theorem ratFloor_eq (q : ℚ) : ratFloor q = ⌊q⌋ := Rat.floor_def.symm

theorem ratCeil_eq (q : ℚ) : ratCeil q = ⌈q⌉ := by
  rw [ratCeil, ratFloor_eq, Int.floor_neg, neg_neg]

theorem jsRound_eq (q : ℚ) : jsRound q = ⌊q + 1 / 2⌋ := ratFloor_eq _

theorem jsRound_intCast (z : ℤ) : jsRound (z : ℚ) = z := by
  rw [jsRound_eq, Int.floor_eq_iff]
  refine ⟨by linarith, by linarith⟩

theorem jsRound_mono {q r : ℚ} (h : q ≤ r) : jsRound q ≤ jsRound r := by
  rw [jsRound_eq, jsRound_eq]
  exact Int.floor_mono (by linarith)

/-! ### Helper lemmas about the color intensity and channel mixing -/

theorem intensityFor_le_one (c m : ℤ) : intensityFor c m ≤ 1 :=
  min_le_right _ _

theorem intensityFor_mono {m c1 c2 : ℤ} (hm : 0 < m) (h : c1 ≤ c2) :
    intensityFor c1 m ≤ intensityFor c2 m := by
  unfold intensityFor
  have hm' : (0 : ℚ) < (m : ℚ) := by exact_mod_cast hm
  have hdiv : (c1 : ℚ) / (m : ℚ) ≤ (c2 : ℚ) / (m : ℚ) := by
    rw [div_le_div_iff_of_pos_right hm']
    exact_mod_cast h
  exact min_le_min (by linarith) (le_refl 1)

theorem le_mixChannel {ch : ℤ} (hch : ch ≤ 255) {i : ℚ} (hi : i ≤ 1) :
    ch ≤ mixChannel ch i := by
  unfold mixChannel
  rw [jsRound_eq, Int.le_floor]
  have hch' : (ch : ℚ) ≤ 255 := by exact_mod_cast hch
  have h2 : (255 - (ch : ℚ)) * i ≤ (255 - (ch : ℚ)) * 1 :=
    mul_le_mul_of_nonneg_left hi (by linarith)
  linarith

theorem mixChannel_anti {ch : ℤ} (hch : ch ≤ 255) {i1 i2 : ℚ} (h : i1 ≤ i2) :
    mixChannel ch i2 ≤ mixChannel ch i1 := by
  unfold mixChannel
  apply jsRound_mono
  have hch' : (ch : ℚ) ≤ 255 := by exact_mod_cast hch
  have h2 : (255 - (ch : ℚ)) * i1 ≤ (255 - (ch : ℚ)) * i2 :=
    mul_le_mul_of_nonneg_left h (by linarith)
  linarith

/-! ### Helper lemmas about `foldr max` -/

theorem foldrMax_init_le (l : List ℤ) (a : ℤ) : a ≤ l.foldr max a := by
  induction l with
  | nil => exact le_refl a
  | cons x l ih => exact le_trans ih (le_max_right x _)

theorem foldrMax_mem_le (l : List ℤ) (a : ℤ) {v : ℤ} (hv : v ∈ l) :
    v ≤ l.foldr max a := by
  induction l with
  | nil => cases hv
  | cons x l ih =>
    rcases List.mem_cons.mp hv with h | h
    · subst h; exact le_max_left _ _
    · exact le_trans (ih h) (le_max_right _ _)

theorem foldrMax_eq_init_or_mem (l : List ℤ) (a : ℤ) :
    l.foldr max a = a ∨ l.foldr max a ∈ l := by
  induction l with
  | nil => left; rfl
  | cons x l ih =>
    rcases max_choice x (l.foldr max a) with h | h
    · right; rw [List.foldr_cons, h]; exact List.mem_cons_self _ _
    · rcases ih with h2 | h2
      · left; rw [List.foldr_cons, h, h2]
      · right; rw [List.foldr_cons, h]; exact List.mem_cons_of_mem _ h2

/-! ### Claim C3 -/

/-- C3: for weekStart in 0 or 1, `alignedStart` is `startDate` shifted back by
`(dayOfWeek(startDate) - weekStart + 7) mod 7` days, lands on the configured
week-start weekday, and for weekStart 1 with a Wednesday start it is exactly
2 days before `startDate`. -/
theorem alignedStart_on_weekStart (p : HeatmapProps)
    (hw : p.weekStart = 0 ∨ p.weekStart = 1) :
    alignedStart p =
      addDays p.startDate (-((getDay p.startDate - p.weekStart + 7) % 7)) ∧
    getDay (alignedStart p) = p.weekStart ∧
    (p.weekStart = 1 → getDay p.startDate = 3 →
      alignedStart p = p.startDate - 2) := by
  refine ⟨rfl, ?_, ?_⟩
  · unfold alignedStart addDays getDay
    rcases hw with h | h <;> rw [h] <;> omega
  · intro h1 h3
    unfold getDay at h3
    unfold alignedStart addDays getDay
    rw [h1]
    omega

theorem alignedStart_on_weekStart_witness :
    ((⟨[], 6, 10, 14, 4, 1⟩ : HeatmapProps).weekStart = 0 ∨
      (⟨[], 6, 10, 14, 4, 1⟩ : HeatmapProps).weekStart = 1) ∧
    alignedStart ⟨[], 6, 10, 14, 4, 1⟩ = 4 := by
  have h := alignedStart_on_weekStart ⟨[], 6, 10, 14, 4, 1⟩ (Or.inr rfl)
  have h2 := h.2.2 rfl (by decide)
  exact ⟨Or.inr rfl, by rw [h2]; decide⟩

/-! ### Claim C4 -/

/-- C4: for every count ≤ 0 the color is the fixed neutral `#ebedf0`,
whatever the base color and maximum are. -/
theorem getColorForCount_nonpositive_neutral (count : ℤ) (baseColor : String)
    (maxC : ℤ) (h : count ≤ 0) :
    getColorForCount count baseColor maxC = "#ebedf0" := by
  unfold getColorForCount
  rw [if_pos h]

theorem getColorForCount_nonpositive_neutral_witness :
    (0 : ℤ) ≤ 0 ∧ getColorForCount 0 "#239a3b" 5 = "#ebedf0" :=
  ⟨by decide, getColorForCount_nonpositive_neutral 0 "#239a3b" 5 (by decide)⟩

/-! ### Claim C7 -/

/-- C7: `totalWeeks` is the ceiling of `totalDays / 7` (characterized by the
integer bounds `totalDays ≤ 7 * totalWeeks < totalDays + 7`), and the canvas
dimensions are `totalWeeks * (cellSize + cellSpacing) + 50` by
`7 * (cellSize + cellSpacing) + 20`. -/
theorem totalWeeks_ceil_and_svg_dims (p : HeatmapProps)
    (h : 0 ≤ totalDays p) :
    totalDays p ≤ 7 * totalWeeks p ∧
    7 * totalWeeks p < totalDays p + 7 ∧
    svgWidth p = totalWeeks p * (p.cellSize + p.cellSpacing) + 50 ∧
    svgHeight p = 7 * (p.cellSize + p.cellSpacing) + 20 := by
  have hc : totalWeeks p = ⌈(totalDays p : ℚ) / 7⌉ := ratCeil_eq _
  refine ⟨?_, ?_, rfl, rfl⟩
  · have h1 := Int.le_ceil ((totalDays p : ℚ) / 7)
    rw [← hc] at h1
    have h2 : (totalDays p : ℚ) ≤ 7 * (totalWeeks p : ℚ) := by linarith
    exact_mod_cast h2
  · have h1 := Int.ceil_lt_add_one ((totalDays p : ℚ) / 7)
    rw [← hc] at h1
    have h2 : 7 * (totalWeeks p : ℚ) < (totalDays p : ℚ) + 7 := by linarith
    exact_mod_cast h2

theorem totalWeeks_ceil_and_svg_dims_witness :
    0 ≤ totalDays ⟨[], 0, 2, 14, 4, 0⟩ ∧
    totalDays ⟨[], 0, 2, 14, 4, 0⟩ ≤ 7 * totalWeeks ⟨[], 0, 2, 14, 4, 0⟩ :=
  ⟨by decide, (totalWeeks_ceil_and_svg_dims ⟨[], 0, 2, 14, 4, 0⟩ (by decide)).1⟩

/-! ### Claim C8 (corrected) -/

/-- C8 counterexample: an inverted range (`endDate` one day before
`startDate`) still produces a non-empty cell list, because week alignment
moves the loop start up to 6 days before `startDate`.  Here `startDate` is
epoch day 0 (a Thursday), `weekStart` is 0, so `alignedStart` is day −4 and
the loop produces 4 padding cells. -/
theorem cells_of_inverted_range_nonempty :
    (⟨[], 0, -1, 14, 4, 0⟩ : HeatmapProps).endDate <
      (⟨[], 0, -1, 14, 4, 0⟩ : HeatmapProps).startDate ∧
    cells ⟨[], 0, -1, 14, 4, 0⟩ ≠ [] := by
  exact ⟨by decide, by decide⟩

/-- C8 amended: whenever `totalDays` is zero or negative (equivalently,
`endDate` lies before `alignedStart`), the loop produces no cells and no
error; `cells` is total. -/
theorem cells_empty_of_nonpositive_totalDays (p : HeatmapProps)
    (h : totalDays p ≤ 0) : cells p = [] := by
  unfold cells
  rw [Int.toNat_of_nonpos h]
  rfl

theorem cells_empty_of_nonpositive_totalDays_witness :
    totalDays ⟨[], 0, -10, 14, 4, 0⟩ ≤ 0 ∧ cells ⟨[], 0, -10, 14, 4, 0⟩ = [] :=
  ⟨by decide, cells_empty_of_nonpositive_totalDays ⟨[], 0, -10, 14, 4, 0⟩ (by decide)⟩

/-! ### Claim C9 -/

/-- C9: the scaling maximum is the maximum of the data values floored at 1:
it is at least 1 (hence a nonzero rational divisor), bounds every stored
value, is 1 or itself a stored value, and is 1 on empty data. -/
theorem maxCount_floor_one (data : List (ℤ × ℤ)) :
    1 ≤ maxCount data ∧
    (∀ v ∈ data.map Prod.snd, v ≤ maxCount data) ∧
    (maxCount data = 1 ∨ maxCount data ∈ data.map Prod.snd) ∧
    (data = [] → maxCount data = 1) ∧
    ((maxCount data : ℚ) ≠ 0) := by
  have h1 : 1 ≤ maxCount data := foldrMax_init_le _ _
  refine ⟨h1, ?_, ?_, ?_, ?_⟩
  · intro v hv
    exact foldrMax_mem_le _ _ hv
  · exact foldrMax_eq_init_or_mem _ _
  · intro h; subst h; rfl
  · have h2 : maxCount data ≠ 0 := by omega
    exact_mod_cast h2

theorem maxCount_floor_one_witness :
    (3 : ℤ) ≤ maxCount [(0, 3), (1, 5)] ∧ maxCount ([] : List (ℤ × ℤ)) = 1 :=
  ⟨(maxCount_floor_one [(0, 3), (1, 5)]).2.1 3 (by decide),
   (maxCount_floor_one []).2.2.2.1 rfl⟩

/-! ### Claim C10 -/

/-- C10: full saturation strictly below the maximum: whenever
`18 * count ≥ 13 * maxCount` (count at least 13/18 ≈ 72% of the maximum) the
raw intensity term reaches 1, the clamped intensity is exactly 1, and the
color equals the color of the maximum itself. -/
theorem saturation_below_max (c m : ℤ) (base : String)
    (hm : 0 < m) (hc : 0 < c) (h : 13 * m ≤ 18 * c) :
    1 ≤ 0.35 + 0.9 * ((c : ℚ) / (m : ℚ)) ∧
    intensityFor c m = 1 ∧
    getColorForCount c base m = getColorForCount m base m := by
  have hm' : (0 : ℚ) < (m : ℚ) := by exact_mod_cast hm
  have hdiv : (13 : ℚ) / 18 ≤ (c : ℚ) / (m : ℚ) := by
    rw [div_le_div_iff₀ (by norm_num) hm']
    have h' : (13 : ℚ) * (m : ℚ) ≤ 18 * (c : ℚ) := by exact_mod_cast h
    linarith
  have h1 : (1 : ℚ) ≤ 0.35 + 0.9 * ((c : ℚ) / (m : ℚ)) := by
    rw [show (0.35 : ℚ) = 7 / 20 by norm_num, show (0.9 : ℚ) = 9 / 10 by norm_num]
    linarith
  have h2 : intensityFor c m = 1 := by
    rw [intensityFor, min_eq_right h1]
  have h3 : intensityFor m m = 1 := by
    rw [intensityFor, div_self (ne_of_gt hm')]
    rw [min_eq_right (by norm_num)]
  refine ⟨h1, h2, ?_⟩
  unfold getColorForCount
  rw [if_neg (by omega), if_neg (by omega), h2, h3]

theorem saturation_below_max_witness :
    (0 : ℤ) < 10 ∧ (0 : ℤ) < 8 ∧ 13 * 10 ≤ 18 * (8 : ℤ) ∧
    getColorForCount 8 "#239a3b" 10 = getColorForCount 10 "#239a3b" 10 :=
  ⟨by decide, by decide, by decide,
   (saturation_below_max 8 10 "#239a3b" (by decide) (by decide) (by decide)).2.2⟩

/-! ### Claim C2 -/

/-- C2: the i-th generated cell carries the date `alignedStart + i`, the count
stored in the data record for that date (0 when absent), and canvas offsets
`(i / 7) * (cellSize + cellSpacing)` and `(i mod 7) * (cellSize + cellSpacing)`. -/
theorem cells_index_formula (p : HeatmapProps) (i : ℕ)
    (h : (i : ℤ) < totalDays p) :
    (cells p).get? i =
      some ⟨alignedStart p + i, lookupCount p.data (alignedStart p + i),
            (((i / 7 : ℕ)) : ℤ) * (p.cellSize + p.cellSpacing),
            (((i % 7 : ℕ)) : ℤ) * (p.cellSize + p.cellSpacing)⟩ ∧
    (∀ d : ℤ, p.data.lookup d = none → lookupCount p.data d = 0) := by
  constructor
  · have hi : i < (totalDays p).toNat := by omega
    unfold cells
    rw [List.get?_map, List.get?_range hi]
    rfl
  · intro d hd
    unfold lookupCount
    rw [hd]

theorem cells_index_formula_witness :
    ((4 : ℕ) : ℤ) < totalDays ⟨[(0, 7)], 0, 2, 14, 4, 0⟩ ∧
    (cells ⟨[(0, 7)], 0, 2, 14, 4, 0⟩).get? 4 =
      some ⟨alignedStart ⟨[(0, 7)], 0, 2, 14, 4, 0⟩ + (4 : ℕ),
            lookupCount [(0, 7)] (alignedStart ⟨[(0, 7)], 0, 2, 14, 4, 0⟩ + (4 : ℕ)),
            (((4 / 7 : ℕ)) : ℤ) * (14 + 4),
            (((4 % 7 : ℕ)) : ℤ) * (14 + 4)⟩ :=
  ⟨by decide, (cells_index_formula ⟨[(0, 7)], 0, 2, 14, 4, 0⟩ 4 (by decide)).1⟩

/-! ### Claim C5 -/

/-- C5: for `count ≥ maxCount > 0` and a base color whose three channel pairs
parse, the intensity caps at 1 and the result is the `rgb(...)` string of the
base color's own channel values. -/
theorem getColorForCount_saturated (c m : ℤ) (base : String) (r g b : ℕ)
    (hm : 0 < m) (hcm : m ≤ c)
    (hr : parseIntHex (jsSubstring base 1 3) = some r)
    (hg : parseIntHex (jsSubstring base 3 5) = some g)
    (hb : parseIntHex (jsSubstring base 5 7) = some b) :
    getColorForCount c base m =
      "rgb(" ++ toString (r : ℤ) ++ ", " ++ toString (g : ℤ) ++ ", " ++
        toString (b : ℤ) ++ ")" := by
  have hm' : (0 : ℚ) < (m : ℚ) := by exact_mod_cast hm
  have hint : intensityFor c m = 1 := by
    rw [intensityFor, min_eq_right]
    have h1 : (1 : ℚ) ≤ (c : ℚ) / (m : ℚ) :=
      (one_le_div hm').mpr (by exact_mod_cast hcm)
    rw [show (0.35 : ℚ) = 7 / 20 by norm_num, show (0.9 : ℚ) = 9 / 10 by norm_num]
    linarith
  have hmix : ∀ k : ℕ, chanStr (some k) 1 = toString ((k : ℤ)) := by
    intro k
    have hk : mixChannel ((k : ℤ)) 1 = (k : ℤ) := by
      unfold mixChannel
      rw [show (255 : ℚ) - (255 - ((k : ℤ) : ℚ)) * 1 = (((k : ℤ)) : ℚ) by
            push_cast; ring]
      exact jsRound_intCast _
    calc chanStr (some k) 1 = toString (mixChannel ((k : ℤ)) 1) := rfl
      _ = toString ((k : ℤ)) := by rw [hk]
  unfold getColorForCount
  rw [if_neg (by omega), hint]
  simp only [shadeColor]
  rw [hr, hg, hb, hmix r, hmix g, hmix b]

theorem getColorForCount_saturated_witness :
    parseIntHex (jsSubstring "#239a3b" 1 3) = some 35 ∧
    parseIntHex (jsSubstring "#239a3b" 3 5) = some 154 ∧
    parseIntHex (jsSubstring "#239a3b" 5 7) = some 59 ∧
    getColorForCount 5 "#239a3b" 5 =
      "rgb(" ++ toString ((35 : ℕ) : ℤ) ++ ", " ++ toString ((154 : ℕ) : ℤ) ++
        ", " ++ toString ((59 : ℕ) : ℤ) ++ ")" :=
  ⟨by decide, by decide, by decide,
   getColorForCount_saturated 5 5 "#239a3b" 35 154 59 (by decide) (by decide)
     (by decide) (by decide) (by decide)⟩

/-! ### Claim C6 -/

/-- C6: with the maximum fixed, as the count grows the mixed channel values
move monotonically toward the base channel and never pass it: the channel for
the larger count lies between the base channel and the channel for the smaller
count, so its distance to the base channel can only shrink; for positive
counts `getColorForCount` renders exactly these mixed channels. -/
theorem mixChannel_monotone_toward_base (m c1 c2 ch : ℤ)
    (hm : 0 < m) (hc1 : 0 < c1) (h12 : c1 ≤ c2)
    (hch0 : 0 ≤ ch) (hch : ch ≤ 255) :
    ch ≤ mixChannel ch (intensityFor c2 m) ∧
    mixChannel ch (intensityFor c2 m) ≤ mixChannel ch (intensityFor c1 m) ∧
    |mixChannel ch (intensityFor c2 m) - ch| ≤
      |mixChannel ch (intensityFor c1 m) - ch| ∧
    (∀ base : String,
      getColorForCount c1 base m = shadeColor base (intensityFor c1 m)) := by
  have hmono : intensityFor c1 m ≤ intensityFor c2 m := intensityFor_mono hm h12
  have ha : ch ≤ mixChannel ch (intensityFor c2 m) :=
    le_mixChannel hch (intensityFor_le_one c2 m)
  have hb : mixChannel ch (intensityFor c2 m) ≤ mixChannel ch (intensityFor c1 m) :=
    mixChannel_anti hch hmono
  refine ⟨ha, hb, ?_, ?_⟩
  · rw [abs_of_nonneg (by omega), abs_of_nonneg (by omega)]
    omega
  · intro base
    unfold getColorForCount
    rw [if_neg (by omega)]

theorem mixChannel_monotone_toward_base_witness :
    (0 : ℤ) < 10 ∧ (0 : ℤ) < 2 ∧ (2 : ℤ) ≤ 5 ∧ (0 : ℤ) ≤ 59 ∧ (59 : ℤ) ≤ 255 ∧
    (59 : ℤ) ≤ mixChannel 59 (intensityFor 5 10) :=
  ⟨by decide, by decide, by decide, by decide, by decide,
   (mixChannel_monotone_toward_base 10 2 5 59 (by decide) (by decide) (by decide)
     (by decide) (by decide)).1⟩

/-! ### Claim C1: month labels -/

theorem buildFirst_sublist (l : List MonthLabel) (seen : List String) :
    (buildFirst l seen).Sublist l := by
  induction l generalizing seen with
  | nil => simp [buildFirst]
  | cons a l ih =>
    by_cases h : a.month ∈ seen
    · simp only [buildFirst, if_pos h]
      exact (ih seen).cons a
    · simp only [buildFirst, if_neg h]
      exact (ih (a.month :: seen)).cons₂ a

theorem mem_buildFirst_months (l : List MonthLabel) (seen : List String)
    (m : String) :
    m ∈ (buildFirst l seen).map MonthLabel.month ↔
      m ∉ seen ∧ m ∈ l.map MonthLabel.month := by
  induction l generalizing seen with
  | nil => simp [buildFirst]
  | cons a l ih =>
    by_cases h : a.month ∈ seen
    · simp only [buildFirst, if_pos h, ih, List.map_cons, List.mem_cons]
      constructor
      · rintro ⟨h1, h2⟩
        exact ⟨h1, Or.inr h2⟩
      · rintro ⟨h1, h2 | h2⟩
        · exact absurd (h2 ▸ h) h1
        · exact ⟨h1, h2⟩
    · simp only [buildFirst, if_neg h, List.map_cons, List.mem_cons, ih,
        not_or]
      constructor
      · rintro (h1 | ⟨⟨h1, h1'⟩, h2⟩)
        · subst h1; exact ⟨h, Or.inl rfl⟩
        · exact ⟨h1', Or.inr h2⟩
      · rintro ⟨h1, h2 | h2⟩
        · exact Or.inl h2
        · by_cases hm : m = a.month
          · exact Or.inl hm
          · exact Or.inr ⟨⟨hm, h1⟩, h2⟩

theorem buildFirst_months_nodup (l : List MonthLabel) (seen : List String) :
    ((buildFirst l seen).map MonthLabel.month).Nodup := by
  induction l generalizing seen with
  | nil => simp [buildFirst]
  | cons a l ih =>
    by_cases h : a.month ∈ seen
    · simp only [buildFirst, if_pos h]
      exact ih seen
    · simp only [buildFirst, if_neg h, List.map_cons, List.nodup_cons]
      refine ⟨?_, ih _⟩
      intro hmem
      rcases (mem_buildFirst_months l (a.month :: seen) a.month).mp hmem with ⟨h1, _⟩
      exact h1 (List.mem_cons_self _ _)

theorem buildFirst_find (l : List MonthLabel) (seen : List String)
    (e : MonthLabel) (he : e ∈ buildFirst l seen) :
    l.find? (fun a => a.month == e.month) = some e := by
  induction l generalizing seen with
  | nil => simp [buildFirst] at he
  | cons a l ih =>
    by_cases h : a.month ∈ seen
    · simp only [buildFirst, if_pos h] at he
      have hne : ¬(a.month == e.month) = true := by
        simp only [beq_iff_eq]
        intro heq
        have h2 := (mem_buildFirst_months l seen e.month).mp
          (List.mem_map_of_mem MonthLabel.month he)
        exact h2.1 (heq ▸ h)
      rw [@List.find?_cons_of_neg MonthLabel (fun x => x.month == e.month) a l hne]
      exact ih seen he
    · simp only [buildFirst, if_neg h] at he
      rcases List.mem_cons.mp he with h1 | h1
      · subst h1
        rw [@List.find?_cons_of_pos MonthLabel (fun x => x.month == e.month) e l
          (by simp)]
      · have hne : ¬(a.month == e.month) = true := by
          simp only [beq_iff_eq]
          intro heq
          have h2 := (mem_buildFirst_months l (a.month :: seen) e.month).mp
            (List.mem_map_of_mem MonthLabel.month h1)
          exact h2.1 (by rw [← heq]; exact List.mem_cons_self _ _)
        rw [@List.find?_cons_of_neg MonthLabel (fun x => x.month == e.month) a l hne]
        exact ih _ h1

theorem visPairs_cons (start : ℤ) (c : Cell) (l : List Cell) :
    visPairs start (c :: l) =
      if c.date < start then visPairs start l
      else ⟨monthShortName c.date, c.x⟩ :: visPairs start l := by
  by_cases hd : c.date < start <;> simp [visPairs, List.filterMap_cons, hd]

theorem visPairs_eq_map_filter (start : ℤ) (l : List Cell) :
    visPairs start l =
      (l.filter fun c => start ≤ c.date).map
        fun c => ⟨monthShortName c.date, c.x⟩ := by
  induction l with
  | nil => rfl
  | cons c l ih =>
    rw [visPairs_cons]
    by_cases hd : c.date < start
    · rw [if_pos hd, List.filter_cons_of_neg, ih]
      simp [not_le.mpr hd]
    · rw [if_neg hd, List.filter_cons_of_pos, List.map_cons, ih]
      simp [not_lt.mp hd]

theorem monthLabelsAux_eq_buildFirst (start : ℤ) (l : List Cell)
    (seen : List String) :
    monthLabelsAux start l seen = buildFirst (visPairs start l) seen := by
  induction l generalizing seen with
  | nil => simp [monthLabelsAux, visPairs, buildFirst]
  | cons c l ih =>
    rw [visPairs_cons]
    by_cases hd : c.date < start
    · rw [if_pos hd]
      simp only [monthLabelsAux, if_pos hd]
      exact ih seen
    · rw [if_neg hd]
      by_cases hm : monthShortName c.date ∈ seen
      · simp only [monthLabelsAux, if_neg hd, if_pos hm, buildFirst]
        exact ih seen
      · simp only [monthLabelsAux, if_neg hd, if_neg hm, buildFirst]
        rw [ih]

/-- C1: the month-label list has pairwise distinct month names; it is a
sublist (hence in chronological cell order) of the labels of the cells at or
after the true `startDate`; its month names are exactly the distinct month
names of those visible cells (padding cells contribute nothing); and each
label carries the x offset of the first visible cell of its month. -/
theorem monthLabels_one_per_month (p : HeatmapProps) :
    ((monthLabels p).map MonthLabel.month).Nodup ∧
    (monthLabels p).Sublist
      (((cells p).filter fun c => p.startDate ≤ c.date).map
        fun c => ⟨monthShortName c.date, c.x⟩) ∧
    (∀ m : String, m ∈ (monthLabels p).map MonthLabel.month ↔
      m ∈ ((cells p).filter fun c => p.startDate ≤ c.date).map
        fun c => monthShortName c.date) ∧
    (∀ e ∈ monthLabels p,
      (((cells p).filter fun c => p.startDate ≤ c.date).map
        fun c => (⟨monthShortName c.date, c.x⟩ : MonthLabel)).find?
          (fun a => a.month == e.month) = some e) := by
  have hb : monthLabels p = buildFirst (visPairs p.startDate (cells p)) [] :=
    monthLabelsAux_eq_buildFirst _ _ _
  have hv := visPairs_eq_map_filter p.startDate (cells p)
  refine ⟨?_, ?_, ?_, ?_⟩
  · rw [hb]
    exact buildFirst_months_nodup _ _
  · rw [hb, ← hv]
    exact buildFirst_sublist _ _
  · intro m
    rw [hb, mem_buildFirst_months]
    simp only [List.not_mem_nil, not_false_iff, true_and]
    rw [hv, List.map_map]
    exact Iff.rfl
  · intro e he
    rw [hb] at he
    rw [← hv]
    exact buildFirst_find _ _ _ he

theorem monthLabels_one_per_month_witness :
    (⟨"Feb", 5⟩ : MonthLabel) ∈ monthLabels ⟨[], 0, 40, 1, 0, 0⟩ ∧
    (((cells ⟨[], 0, 40, 1, 0, 0⟩).filter fun c => (0 : ℤ) ≤ c.date).map
      fun c => (⟨monthShortName c.date, c.x⟩ : MonthLabel)).find?
        (fun a => a.month == "Feb") = some ⟨"Feb", 5⟩ :=
  ⟨by decide,
   (monthLabels_one_per_month ⟨[], 0, 40, 1, 0, 0⟩).2.2.2 ⟨"Feb", 5⟩ (by decide)⟩
